import Mathlib

/-!
Shallow embedding of the statistical core of the A/B-test checkout
analysis repository: `src/stats_utils.py`, `src/data_utils.py`, and the
permutation-test loop of `notebooks/03_statistical_analysis.py`.

Modelling conventions:

* Python/NumPy floating-point arithmetic is modelled over exact fields:
  `ℚ` for the resampling routines (finite data, order comparisons and
  means), `ℝ` for the closed-form interval formulas involving square
  roots.
* NumPy's seeded PCG64 generator (`np.random.default_rng(seed)`) is
  modelled by a deterministic linear congruential generator on 64-bit
  state.  The development depends only on the generator being a pure
  function of its seed that is threaded explicitly through each loop,
  which mirrors NumPy's documented deterministic behaviour.
* Critical values obtained from `scipy.stats.norm.ppf` / `isf` are
  passed as explicit real parameters (for the confidence levels in
  scope they are nonnegative).
* Fallible library behaviour (division by zero raising, NaN propagating
  out of `np.sqrt` of a negative number, a missing dataframe column
  raising `KeyError`) is modelled with `Except` / `Option`.
-/

/-- One step of the modelled 64-bit generator (a linear congruential
update, standing in for NumPy's PCG64 step). -/
def rngNext (s : Nat) : Nat :=
  (6364136223846793005 * s + 1442695040888963407) % 2 ^ 64

/-- Model of `np.random.default_rng(seed)`: the initial generator state
is a pure function of the seed. -/
def rngInit (seed : Nat) : Nat :=
  rngNext (seed % 2 ^ 64)

/-- The output word of a generator state: the high 32 bits (low bits of
a linear congruential state are far from equidistributed). -/
def rngVal (s : Nat) : Nat :=
  s / 2 ^ 32

/-- Mean of a list of rationals, as computed by `ndarray.mean()`. -/
def listMean (l : List ℚ) : ℚ :=
  l.sum / (l.length : ℚ)

/-- Model of `rng.choice(l, size := k, replace := True)`: draw `k`
indices from the generator, reading one element per draw, and return
the sampled list together with the advanced generator state. -/
def sampleRep : Nat → List ℚ → Nat → List ℚ × Nat
  | 0, _, s => ([], s)
  | k + 1, l, s =>
    let x := l.getD (rngVal s % l.length) 0
    let rest := sampleRep k l (rngNext s)
    (x :: rest.1, rest.2)

/-- The resampling loop of `bootstrap_mean_diff` in
`src/stats_utils.py`: for each of `n_boot` iterations resample
`group_a` then `group_b` to their original sizes with replacement and
record `sample_b.mean() - sample_a.mean()`. -/
def bootDiffs : Nat → List ℚ → List ℚ → Nat → List ℚ
  | 0, _, _, _ => []
  | k + 1, a, b, s =>
    let ra := sampleRep a.length a s
    let rb := sampleRep b.length b ra.2
    (listMean rb.1 - listMean ra.1) :: bootDiffs k a b rb.2

/-- Model of `np.percentile(l, p)` with the default linear
interpolation: sort ascending, take the virtual position
`p / 100 * (len - 1)` and interpolate between the neighbouring order
statistics.  (`np.percentile` rejects empty input; the `0` returned
here on the empty list is never relied upon.) -/
def percentile (l : List ℚ) (p : ℚ) : ℚ :=
  let s := l.insertionSort (· ≤ ·)
  if s.length = 0 then 0
  else
    let pos : ℚ := p / 100 * ((s.length : ℚ) - 1)
    let f : ℕ := (⌊pos⌋).toNat
    let c : ℕ := (⌈pos⌉).toNat
    let lo := s.getD f 0
    let hi := s.getD c 0
    lo + (pos - (f : ℚ)) * (hi - lo)

/-- `bootstrap_mean_diff(group_a, group_b, n_boot, ci, seed)` from
`src/stats_utils.py`: returns `diffs.mean()` together with the
`(1-ci)/2` and `(1+ci)/2` percentiles of the resampled differences. -/
def bootstrap_mean_diff (group_a group_b : List ℚ) (n_boot : Nat) (ci : ℚ)
    (seed : Nat) : ℚ × ℚ × ℚ :=
  let diffs := bootDiffs n_boot group_a group_b (rngInit seed)
  (listMean diffs,
   percentile diffs ((1 - ci) / 2 * 100),
   percentile diffs ((1 + ci) / 2 * 100))

/-- Selection shuffle modelling `rng.permutation(l)`: repeatedly draw
an index into the remaining pool and remove the chosen element.  The
fuel argument is the length of the remaining list. -/
def shuffleAux : Nat → List ℚ → Nat → List ℚ × Nat
  | 0, _, s => ([], s)
  | k + 1, l, s =>
    let i := rngVal s % l.length
    let rest := shuffleAux k (l.eraseIdx i) (rngNext s)
    (l.getD i 0 :: rest.1, rest.2)

/-- Model of `rng.permutation(l)`: a shuffled copy of `l` plus the
advanced generator state. -/
def shuffle (l : List ℚ) (s : Nat) : List ℚ × Nat :=
  shuffleAux l.length l s

/-- The permutation loop of `notebooks/03_statistical_analysis.py`
(section 5d): for each iteration shuffle the pooled outcomes and record
`perm[:n_treat].mean() - perm[n_treat:n_treat+n_ctrl].mean()`. -/
def perm_diffs : Nat → List ℚ → Nat → Nat → Nat → List ℚ
  | 0, _, _, _, _ => []
  | k + 1, pool, nt, nc, s =>
    let sh := shuffle pool s
    (listMean (sh.1.take nt) - listMean ((sh.1.drop nt).take nc))
      :: perm_diffs k pool nt nc sh.2

/-- The permutation-test p-value of
`notebooks/03_statistical_analysis.py` (section 5d):
`(np.abs(perm_diffs) >= np.abs(observed_diff)).mean()`, i.e. the
fraction of the `n_perm` permuted differences at least as extreme as
the observed one. -/
def perm_p (pool : List ℚ) (nt nc n_perm seed : Nat)
    (observed_diff : ℚ) : ℚ :=
  let diffs := perm_diffs n_perm pool nt nc (rngInit seed)
  ((diffs.filter fun d => decide (|observed_diff| ≤ |d|)).length : ℚ)
    / (n_perm : ℚ)

/-- Error taxonomy of the specification (section 7): malformed
statistical inputs and zero-denominator degeneracies.  The Python code
surfaces these as library exceptions (`ZeroDivisionError`, a failed
root bracketing, `int(nan)`); the embedding labels them with this
type. -/
inductive StatError where
  | invalidParameter : StatError
  | numericalDegeneracy : StatError
  deriving DecidableEq, Repr

/-- `required_sample_size(baseline_rate, mde, alpha, power)` from
`src/stats_utils.py`.  The source converts the absolute MDE to a
standardized effect size `mde / sqrt(baseline_rate * (1 - baseline_rate))`
and hands it to `statsmodels.NormalIndPower().solve_power` (two-sided,
ratio 1), rounding the result up with `int(np.ceil(n))`.  The external
library solver is modelled by the closed-form solution of the
two-sided normal-approximation power equation,
`n = 2 * (z_alpha + z_power)^2 / effect_size^2`, with the critical
values `z_alpha = ppf(1 - alpha/2)` and `z_power = ppf(power)` passed
as parameters.  When `baseline_rate * (1 - baseline_rate) ≤ 0` the
source divides by `sqrt` of a nonpositive number (zero or NaN) and no
numeric result is produced; likewise a zero effect size makes the
power equation unsolvable.  Both failures are modelled as errors. -/
noncomputable def required_sample_size (z_alpha z_power : ℝ)
    (baseline_rate mde : ℝ) : Except StatError ℤ :=
  if baseline_rate * (1 - baseline_rate) ≤ 0 then .error .invalidParameter
  else if mde = 0 then .error .invalidParameter
  else .ok ⌈2 * (z_alpha + z_power) ^ 2 * (baseline_rate * (1 - baseline_rate))
    / mde ^ 2⌉

/-- `compute_confidence_interval(count, nobs, alpha, method='wilson')`
from `src/stats_utils.py`, which delegates to statsmodels
`proportion_confint` with the Wilson score formula:
`q = count/nobs`, `crit = norm.isf(alpha/2)`,
`denom = 1 + crit²/nobs`, `center = (q + crit²/(2 nobs))/denom`,
`dist = crit * sqrt(q(1-q)/nobs + crit²/(4 nobs²))`, interval
`center ∓ dist/denom`.  With `nobs = 0` the Python scalar division
raises `ZeroDivisionError`; when the discriminant under the square
root is negative `np.sqrt` produces NaN and no numeric interval
results.  Both are modelled as errors; the critical value is a
parameter. -/
noncomputable def compute_confidence_interval (count nobs : ℕ)
    (crit : ℝ) : Except StatError (ℝ × ℝ) :=
  if nobs = 0 then .error .invalidParameter
  else
    let q : ℝ := (count : ℝ) / (nobs : ℝ)
    let crit2 := crit ^ 2
    let denom := 1 + crit2 / (nobs : ℝ)
    let center := (q + crit2 / (2 * (nobs : ℝ))) / denom
    let disc := q * (1 - q) / (nobs : ℝ) + crit2 / (4 * (nobs : ℝ) ^ 2)
    if disc < 0 then .error .numericalDegeneracy
    else
      let dist := crit * Real.sqrt disc
      .ok (center - dist / denom, center + dist / denom)

/-- `compute_lift_ci(rate_control, rate_treatment, n_control,
n_treatment, alpha)` from `src/stats_utils.py`:
`diff = rate_treatment - rate_control`, unpooled standard error, and
interval `diff ∓ crit * se` with `crit = norm.ppf(1 - alpha/2)` passed
as a parameter. -/
noncomputable def compute_lift_ci (rate_control rate_treatment : ℝ)
    (n_control n_treatment : ℕ) (crit : ℝ) : ℝ × ℝ × ℝ :=
  let diff := rate_treatment - rate_control
  let se := Real.sqrt (rate_control * (1 - rate_control) / (n_control : ℝ)
    + rate_treatment * (1 - rate_treatment) / (n_treatment : ℝ))
  (diff, diff - crit * se, diff + crit * se)

section Claims

/-- Claim C2: for valid inputs (rates in the unit interval, positive
group sizes, a nonnegative critical value as produced by
`norm.ppf(1 - alpha/2)` for `alpha ∈ (0,1)`), `compute_lift_ci`
returns a triple whose point is exactly `rate_treatment -
rate_control` and whose interval brackets that point. -/
theorem compute_lift_ci_brackets_diff (rc rt : ℝ) (nc nt : ℕ) (crit : ℝ)
    (hrc0 : 0 ≤ rc) (hrc1 : rc ≤ 1) (hrt0 : 0 ≤ rt) (hrt1 : rt ≤ 1)
    (hnc : 0 < nc) (hnt : 0 < nt) (hcrit : 0 ≤ crit) :
    (compute_lift_ci rc rt nc nt crit).1 = rt - rc ∧
    (compute_lift_ci rc rt nc nt crit).2.1 ≤ (compute_lift_ci rc rt nc nt crit).1 ∧
    (compute_lift_ci rc rt nc nt crit).1 ≤ (compute_lift_ci rc rt nc nt crit).2.2 := by
  have h := mul_nonneg hcrit
    (Real.sqrt_nonneg (rc * (1 - rc) / (nc : ℝ) + rt * (1 - rt) / (nt : ℝ)))
  refine ⟨rfl, ?_, ?_⟩ <;> simp only [compute_lift_ci] <;> linarith

theorem compute_lift_ci_brackets_diff_witness :
    (compute_lift_ci (1/4) (1/2) 10 10 2).1 = 1/2 - 1/4 ∧
    (compute_lift_ci (1/4) (1/2) 10 10 2).2.1 ≤ (compute_lift_ci (1/4) (1/2) 10 10 2).1 ∧
    (compute_lift_ci (1/4) (1/2) 10 10 2).1 ≤ (compute_lift_ci (1/4) (1/2) 10 10 2).2.2 :=
  compute_lift_ci_brackets_diff (1/4) (1/2) 10 10 2
    (by norm_num) (by norm_num) (by norm_num) (by norm_num)
    (by norm_num) (by norm_num) (by norm_num)

/-- Claim C4: the bootstrap routine and the permutation loop are
deterministic in their seed: two invocations with identical samples,
identical iteration counts and the same seed return identical
outputs.  In the embedding the generator state is created from the
seed inside the routine and threaded explicitly, so the output is a
pure function of the listed arguments - mirroring the source, where
`np.random.default_rng(seed)` builds a fresh generator per call and no
ambient random state is consulted. -/
theorem seeded_resampling_deterministic
    (a₁ a₂ b₁ b₂ pool₁ pool₂ : List ℚ) (n₁ n₂ s₁ s₂ nt₁ nt₂ nc₁ nc₂ k₁ k₂ : ℕ)
    (ci₁ ci₂ : ℚ)
    (ha : a₁ = a₂) (hb : b₁ = b₂) (hn : n₁ = n₂) (hci : ci₁ = ci₂) (hs : s₁ = s₂)
    (hpool : pool₁ = pool₂) (hnt : nt₁ = nt₂) (hnc : nc₁ = nc₂) (hk : k₁ = k₂) :
    bootstrap_mean_diff a₁ b₁ n₁ ci₁ s₁ = bootstrap_mean_diff a₂ b₂ n₂ ci₂ s₂ ∧
    perm_diffs k₁ pool₁ nt₁ nc₁ (rngInit s₁) = perm_diffs k₂ pool₂ nt₂ nc₂ (rngInit s₂) := by
  subst ha hb hn hci hs hpool hnt hnc hk
  exact ⟨rfl, rfl⟩

theorem seeded_resampling_deterministic_witness :
    bootstrap_mean_diff [0, 1] [2, 3] 4 (95/100) 42 = bootstrap_mean_diff [0, 1] [2, 3] 4 (95/100) 42 ∧
    perm_diffs 3 [0, 1, 1] 1 2 (rngInit 42) = perm_diffs 3 [0, 1, 1] 1 2 (rngInit 42) :=
  seeded_resampling_deterministic [0, 1] [0, 1] [2, 3] [2, 3] [0, 1, 1] [0, 1, 1]
    4 4 42 42 1 1 2 2 3 3 (95/100) (95/100)
    rfl rfl rfl rfl rfl rfl rfl rfl rfl

/-- Claim C8: `required_sample_size` fails (no numeric result, the
modelled `InvalidParameter` outcome) when the baseline rate is 0 or 1,
where the standardized-effect-size conversion divides by
`sqrt(baseline_rate * (1 - baseline_rate)) = 0`. -/
theorem required_sample_size_degenerate_baseline (z_alpha z_power mde p : ℝ)
    (hp : p = 0 ∨ p = 1) :
    required_sample_size z_alpha z_power p mde = .error .invalidParameter := by
  rcases hp with h | h <;> subst h <;> simp [required_sample_size]

theorem required_sample_size_degenerate_baseline_witness :
    required_sample_size 2 1 0 (1/100) = .error .invalidParameter ∧
    required_sample_size 2 1 1 (1/100) = .error .invalidParameter :=
  ⟨required_sample_size_degenerate_baseline 2 1 (1/100) 0 (Or.inl rfl),
   required_sample_size_degenerate_baseline 2 1 (1/100) 1 (Or.inr rfl)⟩

/-- Claim C5: holding the baseline rate (valid, strictly between 0 and
1) and the critical values fixed, `required_sample_size` is
monotonically non-increasing in the minimum detectable effect: a
larger `mde` never demands more samples. -/
theorem required_sample_size_antitone_in_mde (z_alpha z_power p mde₁ mde₂ : ℝ)
    (hp0 : 0 < p) (hp1 : p < 1) (h1 : 0 < mde₁) (h12 : mde₁ ≤ mde₂) :
    ∃ n₁ n₂ : ℤ,
      required_sample_size z_alpha z_power p mde₁ = .ok n₁ ∧
      required_sample_size z_alpha z_power p mde₂ = .ok n₂ ∧
      n₂ ≤ n₁ := by
  have hpp : 0 < p * (1 - p) := mul_pos hp0 (by linarith)
  have h2 : 0 < mde₂ := lt_of_lt_of_le h1 h12
  refine ⟨⌈2 * (z_alpha + z_power) ^ 2 * (p * (1 - p)) / mde₁ ^ 2⌉,
    ⌈2 * (z_alpha + z_power) ^ 2 * (p * (1 - p)) / mde₂ ^ 2⌉, ?_, ?_, ?_⟩
  · rw [required_sample_size, if_neg (not_le.2 hpp), if_neg h1.ne']
  · rw [required_sample_size, if_neg (not_le.2 hpp), if_neg h2.ne']
  · apply Int.ceil_le_ceil
    have hnum : 0 ≤ 2 * (z_alpha + z_power) ^ 2 * (p * (1 - p)) := by positivity
    exact div_le_div_of_nonneg_left hnum (pow_pos h1 2) (pow_le_pow_left₀ h1.le h12 2)

theorem required_sample_size_antitone_in_mde_witness :
    ∃ n₁ n₂ : ℤ,
      required_sample_size 2 1 (1/2) 1 = .ok n₁ ∧
      required_sample_size 2 1 (1/2) 2 = .ok n₂ ∧
      n₂ ≤ n₁ :=
  required_sample_size_antitone_in_mde 2 1 (1/2) 1 2
    (by norm_num) (by norm_num) (by norm_num) (by norm_num)

end Claims

section BootstrapConstant

attribute [local semireducible] Rat.mul Rat.inv Rat.add Rat.sub

lemma getD_eq_getElem_of_lt (l : List ℚ) (i : ℕ) (h : i < l.length) :
    l.getD i 0 = l[i] := by
  simp [List.getD_eq_getElem?_getD, List.getElem?_eq_getElem h]

lemma sampleRep_fst_length (k : ℕ) (l : List ℚ) (s : ℕ) :
    (sampleRep k l s).1.length = k := by
  induction k generalizing s with
  | zero => rfl
  | succ k ih => simp [sampleRep, ih]

lemma sampleRep_succ (k : ℕ) (l : List ℚ) (s : ℕ) :
    sampleRep (k + 1) l s =
      (l.getD (rngVal s % l.length) 0 :: (sampleRep k l (rngNext s)).1,
       (sampleRep k l (rngNext s)).2) := rfl

lemma sampleRep_const (k : ℕ) (l : List ℚ) (s : ℕ) (c : ℚ)
    (hconst : ∀ x ∈ l, x = c) (hne : l ≠ []) :
    (sampleRep k l s).1 = List.replicate k c := by
  induction k generalizing s with
  | zero => rfl
  | succ k ih =>
    have hlen : 0 < l.length := List.length_pos.2 hne
    have hidx : rngVal s % l.length < l.length := Nat.mod_lt _ hlen
    have hx : l.getD (rngVal s % l.length) 0 = c := by
      rw [getD_eq_getElem_of_lt l _ hidx]
      exact hconst _ (List.getElem_mem hidx)
    rw [sampleRep_succ, List.replicate_succ]
    exact congrArg₂ List.cons hx (ih (rngNext s))

lemma listMean_replicate (k : ℕ) (c : ℚ) (hk : k ≠ 0) :
    listMean (List.replicate k c) = c := by
  have : ((k : ℚ)) ≠ 0 := Nat.cast_ne_zero.2 hk
  simp [listMean, List.sum_replicate, nsmul_eq_mul]
  field_simp

lemma bootDiffs_const (n : ℕ) (a : List ℚ) (c : ℚ) (s : ℕ)
    (hconst : ∀ x ∈ a, x = c) (hne : a ≠ []) :
    bootDiffs n a a s = List.replicate n 0 := by
  induction n generalizing s with
  | zero => rfl
  | succ n ih =>
    have hlen : a.length ≠ 0 := fun h => hne (List.length_eq_zero.1 h)
    simp only [bootDiffs, List.replicate_succ]
    rw [sampleRep_const a.length a s c hconst hne,
      sampleRep_const a.length a _ c hconst hne,
      listMean_replicate a.length c hlen, ih]
    simp

lemma listMean_replicate_zero (n : ℕ) : listMean (List.replicate n 0) = 0 := by
  simp [listMean, List.sum_replicate]

lemma insertionSort_replicate_zero (n : ℕ) :
    (List.replicate n (0 : ℚ)).insertionSort (· ≤ ·) = List.replicate n 0 := by
  apply List.Sorted.insertionSort_eq
  exact List.pairwise_replicate.2 (Or.inr le_rfl)

lemma getD_replicate_zero (n i : ℕ) :
    (List.replicate n (0 : ℚ)).getD i 0 = 0 := by
  by_cases hi : i < n
  · rw [getD_eq_getElem_of_lt _ _ (by simpa using hi)]
    simp
  · have hlen : (List.replicate n (0 : ℚ)).length ≤ i := by
      simpa using Nat.le_of_not_lt hi
    simp [List.getD_eq_getElem?_getD, List.getElem?_eq_none hlen]

lemma percentile_replicate_zero (n : ℕ) (p : ℚ) :
    percentile (List.replicate n 0) p = 0 := by
  simp only [percentile, insertionSort_replicate_zero, List.length_replicate,
    getD_replicate_zero]
  by_cases h : n = 0
  · simp [h]
  · rw [if_neg h]
    ring

/-- Claim C6 counterexample: for the identical non-constant samples
`[0, 1]` and `[0, 1]`, one resampling iteration and seed 1, the first
component returned by `bootstrap_mean_diff` (the mean of the resampled
differences, which the source returns as its observed difference) is
`1/2`, not `0`: the two groups are resampled independently from the
generator stream, so identical inputs do not force a zero difference. -/
theorem bootstrap_mean_diff_identical_not_zero :
    (bootstrap_mean_diff [0, 1] [0, 1] 1 (95/100) 1).1 ≠ 0 := by decide

/-- Claim C6 (corrected): for a non-empty constant sample `s` (every
element equal to `c`) and at least one resampling iteration,
`bootstrap_mean_diff s s n_boot ci seed` returns an observed
difference of exactly `0` and a percentile interval containing `0`.
For non-constant identical samples the observed difference is the mean
of independently resampled differences and need not be zero. -/
theorem bootstrap_mean_diff_constant_self (s : List ℚ) (c : ℚ) (n_boot : ℕ)
    (ci : ℚ) (seed : ℕ) (hconst : ∀ x ∈ s, x = c) (hne : s ≠ [])
    (hn : 1 ≤ n_boot) :
    (bootstrap_mean_diff s s n_boot ci seed).1 = 0 ∧
    (bootstrap_mean_diff s s n_boot ci seed).2.1 ≤ 0 ∧
    0 ≤ (bootstrap_mean_diff s s n_boot ci seed).2.2 := by
  have hd : bootDiffs n_boot s s (rngInit seed) = List.replicate n_boot 0 :=
    bootDiffs_const n_boot s c (rngInit seed) hconst hne
  refine ⟨?_, ?_, ?_⟩ <;>
    simp [bootstrap_mean_diff, hd, listMean_replicate_zero,
      percentile_replicate_zero]

theorem bootstrap_mean_diff_constant_self_witness :
    (bootstrap_mean_diff [5, 5] [5, 5] 3 (95/100) 42).1 = 0 ∧
    (bootstrap_mean_diff [5, 5] [5, 5] 3 (95/100) 42).2.1 ≤ 0 ∧
    0 ≤ (bootstrap_mean_diff [5, 5] [5, 5] 3 (95/100) 42).2.2 :=
  bootstrap_mean_diff_constant_self [5, 5] 5 3 (95/100) 42
    (by decide) (by decide) (by decide)

end BootstrapConstant

section PercentileMono

attribute [local semireducible] Rat.mul Rat.inv Rat.add Rat.sub

lemma sorted_getD_mono {l : List ℚ} (h : l.Sorted (· ≤ ·)) {i j : ℕ}
    (hij : i ≤ j) (hj : j < l.length) : l.getD i 0 ≤ l.getD j 0 := by
  have hi : i < l.length := lt_of_le_of_lt hij hj
  rw [getD_eq_getElem_of_lt _ _ hi, getD_eq_getElem_of_lt _ _ hj]
  rcases Nat.lt_or_ge i j with hlt | hge
  · exact List.pairwise_iff_getElem.1 h i j hi hj hlt
  · have hij' : i = j := le_antisymm hij hge
    subst hij'
    exact le_rfl

lemma percentile_le_percentile (l : List ℚ) (p₁ p₂ : ℚ)
    (h0 : 0 ≤ p₁) (h12 : p₁ ≤ p₂) (h100 : p₂ ≤ 100) :
    percentile l p₁ ≤ percentile l p₂ := by
  simp only [percentile]
  by_cases hlen : (l.insertionSort (· ≤ ·)).length = 0
  · simp [hlen]
  · rw [if_neg hlen, if_neg hlen]
    set s := l.insertionSort (· ≤ ·) with hs
    have hsorted : s.Sorted (· ≤ ·) := List.sorted_insertionSort _ l
    have hN : 1 ≤ s.length := Nat.one_le_iff_ne_zero.2 hlen
    have hm1 : (0 : ℚ) ≤ (s.length : ℚ) - 1 := by
      have h1 : (1 : ℚ) ≤ (s.length : ℚ) := by exact_mod_cast hN
      linarith
    set pos₁ : ℚ := p₁ / 100 * ((s.length : ℚ) - 1) with hpos₁
    set pos₂ : ℚ := p₂ / 100 * ((s.length : ℚ) - 1) with hpos₂
    have hpos0 : 0 ≤ pos₁ := mul_nonneg (div_nonneg h0 (by norm_num)) hm1
    have hpos12 : pos₁ ≤ pos₂ :=
      mul_le_mul_of_nonneg_right
        (div_le_div_of_nonneg_right h12 (by norm_num)) hm1
    have hpos2top : pos₂ ≤ (s.length : ℚ) - 1 := by
      have hp2 : p₂ / 100 ≤ 1 := by
        rw [div_le_one (by norm_num : (0 : ℚ) < 100)]
        exact h100
      calc pos₂ ≤ 1 * ((s.length : ℚ) - 1) := mul_le_mul_of_nonneg_right hp2 hm1
        _ = (s.length : ℚ) - 1 := one_mul _
    have hF0 : (0 : ℤ) ≤ ⌊pos₁⌋ := Int.floor_nonneg.2 hpos0
    have hF0' : (0 : ℤ) ≤ ⌊pos₂⌋ := Int.floor_nonneg.2 (le_trans hpos0 hpos12)
    have hC2top : ⌈pos₂⌉ ≤ (s.length : ℤ) - 1 := by
      apply Int.ceil_le.2
      push_cast
      exact hpos2top
    have hC1top : ⌈pos₁⌉ ≤ (s.length : ℤ) - 1 :=
      le_trans (Int.ceil_le_ceil hpos12) hC2top
    have hFC₁ : ⌊pos₁⌋ ≤ ⌈pos₁⌉ := Int.floor_le_ceil pos₁
    have hFC₂ : ⌊pos₂⌋ ≤ ⌈pos₂⌉ := Int.floor_le_ceil pos₂
    have hc₁lt : (⌈pos₁⌉).toNat < s.length := by omega
    have hc₂lt : (⌈pos₂⌉).toNat < s.length := by omega
    have hf₂lt : (⌊pos₂⌋).toNat < s.length := by omega
    have hcast₁ : ((⌊pos₁⌋.toNat : ℚ)) = ((⌊pos₁⌋ : ℤ) : ℚ) := by
      rw [← Int.cast_natCast, Int.toNat_of_nonneg hF0]
    have hcast₂ : ((⌊pos₂⌋.toNat : ℚ)) = ((⌊pos₂⌋ : ℤ) : ℚ) := by
      rw [← Int.cast_natCast, Int.toNat_of_nonneg hF0']
    have hfrac₁0 : 0 ≤ pos₁ - (⌊pos₁⌋.toNat : ℚ) := by
      rw [hcast₁]
      have := Int.floor_le pos₁
      linarith
    have hfrac₁1 : pos₁ - (⌊pos₁⌋.toNat : ℚ) ≤ 1 := by
      rw [hcast₁]
      have := Int.lt_floor_add_one pos₁
      linarith
    have hfrac₂0 : 0 ≤ pos₂ - (⌊pos₂⌋.toNat : ℚ) := by
      rw [hcast₂]
      have := Int.floor_le pos₂
      linarith
    have hsfc₁ : s.getD (⌊pos₁⌋).toNat 0 ≤ s.getD (⌈pos₁⌉).toNat 0 :=
      sorted_getD_mono hsorted (by omega) hc₁lt
    have hsfc₂ : s.getD (⌊pos₂⌋).toNat 0 ≤ s.getD (⌈pos₂⌉).toNat 0 :=
      sorted_getD_mono hsorted (by omega) hc₂lt
    by_cases hAB : ⌈pos₁⌉ ≤ ⌊pos₂⌋
    · have hmid : s.getD (⌈pos₁⌉).toNat 0 ≤ s.getD (⌊pos₂⌋).toNat 0 :=
        sorted_getD_mono hsorted (by omega) hf₂lt
      have hv₁ : s.getD (⌊pos₁⌋).toNat 0
          + (pos₁ - (⌊pos₁⌋.toNat : ℚ)) * (s.getD (⌈pos₁⌉).toNat 0 - s.getD (⌊pos₁⌋).toNat 0)
          ≤ s.getD (⌈pos₁⌉).toNat 0 := by
        nlinarith [mul_nonneg (by linarith : (0:ℚ) ≤ 1 - (pos₁ - (⌊pos₁⌋.toNat : ℚ)))
          (by linarith : (0:ℚ) ≤ s.getD (⌈pos₁⌉).toNat 0 - s.getD (⌊pos₁⌋).toNat 0)]
      have hv₂ : s.getD (⌊pos₂⌋).toNat 0
          ≤ s.getD (⌊pos₂⌋).toNat 0
          + (pos₂ - (⌊pos₂⌋.toNat : ℚ)) * (s.getD (⌈pos₂⌉).toNat 0 - s.getD (⌊pos₂⌋).toNat 0) := by
        nlinarith [mul_nonneg hfrac₂0
          (by linarith : (0:ℚ) ≤ s.getD (⌈pos₂⌉).toNat 0 - s.getD (⌊pos₂⌋).toNat 0)]
      linarith
    · have hF12 : ⌊pos₁⌋ ≤ ⌊pos₂⌋ := Int.floor_le_floor hpos12
      have hC1F1 : ⌈pos₁⌉ ≤ ⌊pos₁⌋ + 1 := Int.ceil_le_floor_add_one pos₁
      have hC2F2 : ⌈pos₂⌉ ≤ ⌊pos₂⌋ + 1 := Int.ceil_le_floor_add_one pos₂
      have hC12 : ⌈pos₁⌉ ≤ ⌈pos₂⌉ := Int.ceil_le_ceil hpos12
      have hFF : ⌊pos₁⌋ = ⌊pos₂⌋ := by omega
      have hCC : ⌈pos₁⌉ = ⌈pos₂⌉ := by omega
      rw [hFF, hCC]
      nlinarith [mul_nonneg (by linarith : (0:ℚ) ≤ pos₂ - pos₁)
        (by linarith : (0:ℚ) ≤ s.getD (⌈pos₂⌉).toNat 0 - s.getD (⌊pos₂⌋).toNat 0)]

/-- Claim C7 counterexample: at the non-empty samples `[0]` and
`[0, 1]`, `n_boot = 5`, confidence level `1/100 ∈ (0,1)` and seed 0,
`bootstrap_mean_diff` returns the triple `(1/5, 0, 1/100)`: the point
(the mean of the resampled differences) lies strictly above the upper
percentile bound, so `lower ≤ point ≤ upper` fails. -/
theorem bootstrap_mean_diff_point_outside_interval :
    (bootstrap_mean_diff [0] [0, 1] 5 (1/100) 0) = (1/5, 0, 1/100) ∧
    (bootstrap_mean_diff [0] [0, 1] 5 (1/100) 0).2.2
      < (bootstrap_mean_diff [0] [0, 1] 5 (1/100) 0).1 := by
  constructor <;> decide

/-- Claim C7 (corrected): for every pair of samples, iteration count,
seed, and confidence level `ci ∈ [0, 1]`, the interval returned by
`bootstrap_mean_diff` is at least ordered: `lower ≤ upper` (the lower
percentile of the resampled-difference distribution never exceeds the
upper one).  The point, being the mean rather than a percentile of the
resampled differences, can fall outside the interval, as the
counterexample shows. -/
theorem bootstrap_mean_diff_lower_le_upper (a b : List ℚ) (n_boot : ℕ)
    (ci : ℚ) (seed : ℕ) (hci0 : 0 ≤ ci) (hci1 : ci ≤ 1) :
    (bootstrap_mean_diff a b n_boot ci seed).2.1
      ≤ (bootstrap_mean_diff a b n_boot ci seed).2.2 := by
  simp only [bootstrap_mean_diff]
  apply percentile_le_percentile <;> linarith

theorem bootstrap_mean_diff_lower_le_upper_witness :
    (bootstrap_mean_diff [0] [1] 2 (95/100) 3).2.1
      ≤ (bootstrap_mean_diff [0] [1] 2 (95/100) 3).2.2 :=
  bootstrap_mean_diff_lower_le_upper [0] [1] 2 (95/100) 3
    (by norm_num) (by norm_num)

end PercentileMono

section PermutationTest

lemma perm_cons_getD_eraseIdx (l : List ℚ) (i : ℕ) (hi : i < l.length) :
    List.Perm l (l.getD i 0 :: l.eraseIdx i) := by
  rw [getD_eq_getElem_of_lt _ _ hi]
  exact (List.perm_cons_erase (List.getElem_mem hi)).trans
    ((List.erase_getElem hi).cons _)

lemma shuffleAux_succ (k : ℕ) (l : List ℚ) (s : ℕ) :
    shuffleAux (k + 1) l s =
      (l.getD (rngVal s % l.length) 0
         :: (shuffleAux k (l.eraseIdx (rngVal s % l.length)) (rngNext s)).1,
       (shuffleAux k (l.eraseIdx (rngVal s % l.length)) (rngNext s)).2) := rfl

lemma shuffleAux_fst_perm (k : ℕ) (l : List ℚ) (s : ℕ) (hk : l.length = k) :
    List.Perm (shuffleAux k l s).1 l := by
  induction k generalizing l s with
  | zero =>
    have hnil : l = [] := List.length_eq_zero.1 hk
    subst hnil
    exact List.Perm.refl _
  | succ k ih =>
    have hlen : 0 < l.length := by omega
    have hidx : rngVal s % l.length < l.length := Nat.mod_lt _ hlen
    have herase : (l.eraseIdx (rngVal s % l.length)).length = k := by
      rw [List.length_eraseIdx_of_lt hidx]
      omega
    rw [shuffleAux_succ]
    exact ((ih _ (rngNext s) herase).cons _).trans
      (perm_cons_getD_eraseIdx l _ hidx).symm

lemma shuffle_fst_perm (l : List ℚ) (s : ℕ) : List.Perm (shuffle l s).1 l :=
  shuffleAux_fst_perm l.length l s rfl

lemma perm_diffs_succ (k : ℕ) (pool : List ℚ) (nt nc s : ℕ) :
    perm_diffs (k + 1) pool nt nc s =
      (listMean ((shuffle pool s).1.take nt)
         - listMean (((shuffle pool s).1.drop nt).take nc))
        :: perm_diffs k pool nt nc (shuffle pool s).2 := rfl

lemma perm_diffs_length (k : ℕ) (pool : List ℚ) (nt nc s : ℕ) :
    (perm_diffs k pool nt nc s).length = k := by
  induction k generalizing s with
  | zero => rfl
  | succ k ih => rw [perm_diffs_succ, List.length_cons, ih]

lemma perm_diffs_mem (k : ℕ) (pool : List ℚ) (nt nc s : ℕ) (d : ℚ)
    (hd : d ∈ perm_diffs k pool nt nc s) :
    ∃ q : List ℚ, List.Perm q pool ∧
      d = listMean (q.take nt) - listMean ((q.drop nt).take nc) := by
  induction k generalizing s with
  | zero => cases hd
  | succ k ih =>
    rw [perm_diffs_succ] at hd
    rcases List.mem_cons.1 hd with h | h
    · exact ⟨(shuffle pool s).1, shuffle_fst_perm pool s, h⟩
    · exact ih _ h

/-- Claim C3: the permutation test's p-value is exactly the fraction,
over the `n_perm` iterations, of permuted mean differences `d` with
`|d| ≥ |observed_diff|`; every permuted difference is the mean
difference of a partition (first `nt`, next `nc` elements) of a
shuffled copy of the pooled outcomes; and the p-value always lies in
`[0, 1]`. -/
theorem perm_p_is_extreme_fraction (pool : List ℚ) (nt nc n_perm seed : ℕ)
    (observed_diff : ℚ) :
    0 ≤ perm_p pool nt nc n_perm seed observed_diff ∧
    perm_p pool nt nc n_perm seed observed_diff ≤ 1 ∧
    (perm_diffs n_perm pool nt nc (rngInit seed)).length = n_perm ∧
    perm_p pool nt nc n_perm seed observed_diff =
      (((perm_diffs n_perm pool nt nc (rngInit seed)).filter
          fun d => decide (|observed_diff| ≤ |d|)).length : ℚ) / (n_perm : ℚ) ∧
    ∀ d ∈ perm_diffs n_perm pool nt nc (rngInit seed),
      ∃ q : List ℚ, List.Perm q pool ∧
        d = listMean (q.take nt) - listMean ((q.drop nt).take nc) := by
  refine ⟨?_, ?_, perm_diffs_length n_perm pool nt nc (rngInit seed), rfl,
    fun d hd => perm_diffs_mem n_perm pool nt nc (rngInit seed) d hd⟩
  · exact div_nonneg (Nat.cast_nonneg _) (Nat.cast_nonneg _)
  · by_cases hn : n_perm = 0
    · subst hn
      simp [perm_p, perm_diffs]
    · have hpos : (0 : ℚ) < (n_perm : ℚ) :=
        Nat.cast_pos.2 (Nat.pos_of_ne_zero hn)
      apply (div_le_one hpos).2
      have hle : ((perm_diffs n_perm pool nt nc (rngInit seed)).filter
          fun d => decide (|observed_diff| ≤ |d|)).length ≤ n_perm := by
        calc ((perm_diffs n_perm pool nt nc (rngInit seed)).filter
              fun d => decide (|observed_diff| ≤ |d|)).length
            ≤ (perm_diffs n_perm pool nt nc (rngInit seed)).length :=
              List.length_filter_le _ _
          _ = n_perm := perm_diffs_length n_perm pool nt nc (rngInit seed)
      exact_mod_cast hle

theorem perm_p_is_extreme_fraction_witness :
    0 ≤ perm_p [0, 1, 1] 1 2 3 42 (1/3) ∧
    perm_p [0, 1, 1] 1 2 3 42 (1/3) ≤ 1 :=
  ⟨(perm_p_is_extreme_fraction [0, 1, 1] 1 2 3 42 (1/3)).1,
   (perm_p_is_extreme_fraction [0, 1, 1] 1 2 3 42 (1/3)).2.1⟩

end PermutationTest

section Wilson

lemma le_of_sq_le_sq_nonneg {A B : ℝ} (hA : 0 ≤ A) (hB : 0 ≤ B) (h : B ^ 2 ≤ A ^ 2) :
    B ≤ A := by
  by_contra hc
  push_neg at hc
  have hlt : A ^ 2 < B ^ 2 := by nlinarith
  linarith

lemma wilson_algebra (q nr z : ℝ) (hq0 : 0 ≤ q) (hq1 : q ≤ 1)
    (hn : 0 < nr) (hz : 0 ≤ z) :
    0 ≤ (q + z ^ 2 / (2 * nr)) / (1 + z ^ 2 / nr)
        - z * Real.sqrt (q * (1 - q) / nr + z ^ 2 / (4 * nr ^ 2)) / (1 + z ^ 2 / nr) ∧
    (q + z ^ 2 / (2 * nr)) / (1 + z ^ 2 / nr)
        - z * Real.sqrt (q * (1 - q) / nr + z ^ 2 / (4 * nr ^ 2)) / (1 + z ^ 2 / nr) ≤ q ∧
    q ≤ (q + z ^ 2 / (2 * nr)) / (1 + z ^ 2 / nr)
        + z * Real.sqrt (q * (1 - q) / nr + z ^ 2 / (4 * nr ^ 2)) / (1 + z ^ 2 / nr) ∧
    (q + z ^ 2 / (2 * nr)) / (1 + z ^ 2 / nr)
        + z * Real.sqrt (q * (1 - q) / nr + z ^ 2 / (4 * nr ^ 2)) / (1 + z ^ 2 / nr) ≤ 1 := by
  have hnr' : nr ≠ 0 := hn.ne'
  have hq1' : 0 ≤ 1 - q := by linarith
  set disc : ℝ := q * (1 - q) / nr + z ^ 2 / (4 * nr ^ 2) with hdisc
  have hdisc0 : 0 ≤ disc := by
    rw [hdisc]
    have h1 : 0 ≤ q * (1 - q) / nr := div_nonneg (mul_nonneg hq0 hq1') hn.le
    have h2 : 0 ≤ z ^ 2 / (4 * nr ^ 2) := by positivity
    linarith
  set s : ℝ := Real.sqrt disc with hsdef
  have hs0 : 0 ≤ s := Real.sqrt_nonneg _
  have hs2 : s ^ 2 = disc := Real.sq_sqrt hdisc0
  set D : ℝ := 1 + z ^ 2 / nr with hD
  have hc2n : 0 ≤ z ^ 2 / nr := by positivity
  have hD0 : 0 < D := by rw [hD]; linarith
  set A : ℝ := q + z ^ 2 / (2 * nr) with hA
  have hA0 : 0 ≤ A := by
    have h3 : 0 ≤ z ^ 2 / (2 * nr) := by positivity
    rw [hA]; linarith
  have hzs0 : 0 ≤ z * s := mul_nonneg hz hs0
  have hzs2 : (z * s) ^ 2 = z ^ 2 * disc := by rw [mul_pow, hs2]
  clear_value disc s D A
  have hkey1 : z * s ≤ A := by
    apply le_of_sq_le_sq_nonneg hA0 hzs0
    have hid : A ^ 2 - z ^ 2 * disc = q ^ 2 * D := by
      rw [hA, hdisc, hD]
      field_simp
      ring
    nlinarith [mul_nonneg (sq_nonneg q) hD0.le]
  have hid2 : z ^ 2 * disc - (A - q * D) ^ 2 = z ^ 2 * (q * (1 - q) / nr) * D := by
    rw [hA, hdisc, hD]
    field_simp
    ring
  have habs : |A - q * D| ≤ z * s := by
    apply le_of_sq_le_sq_nonneg hzs0 (abs_nonneg _)
    rw [sq_abs, hzs2]
    nlinarith [mul_nonneg (mul_nonneg (sq_nonneg z)
      (div_nonneg (mul_nonneg hq0 hq1') hn.le)) hD0.le]
  have hDA : D - A = (1 - q) + z ^ 2 / (2 * nr) := by
    rw [hD, hA]
    field_simp
    ring
  have hDA0 : 0 ≤ D - A := by
    have h3 : 0 ≤ z ^ 2 / (2 * nr) := by positivity
    rw [hDA]; linarith
  have hkey3 : z * s ≤ D - A := by
    apply le_of_sq_le_sq_nonneg hDA0 hzs0
    have hid3 : (D - A) ^ 2 - z ^ 2 * disc = (1 - q) ^ 2 * D := by
      rw [hA, hdisc, hD]
      field_simp
      ring
    nlinarith [mul_nonneg (sq_nonneg (1 - q)) hD0.le]
  refine ⟨?_, ?_, ?_, ?_⟩
  · rw [div_sub_div_same]
    apply div_nonneg _ hD0.le
    linarith
  · rw [div_sub_div_same, div_le_iff hD0]
    have h4 := le_abs_self (A - q * D)
    linarith
  · rw [div_add_div_same, le_div_iff hD0]
    have h5 := neg_abs_le (A - q * D)
    linarith
  · rw [div_add_div_same, div_le_one hD0]
    linarith

lemma wilson_ok_bounds (count nobs : ℕ) (crit : ℝ) (hcn : count ≤ nobs)
    (hn : 0 < nobs) (hcrit : 0 ≤ crit) :
    ∃ lo hi : ℝ,
      compute_confidence_interval count nobs crit = .ok (lo, hi) ∧
      0 ≤ lo ∧ lo ≤ (count : ℝ) / (nobs : ℝ) ∧
      (count : ℝ) / (nobs : ℝ) ≤ hi ∧ hi ≤ 1 := by
  have hn0 : nobs ≠ 0 := hn.ne'
  have hnr : (0 : ℝ) < (nobs : ℝ) := by exact_mod_cast hn
  have hq0 : 0 ≤ (count : ℝ) / (nobs : ℝ) :=
    div_nonneg (Nat.cast_nonneg _) hnr.le
  have hq1 : (count : ℝ) / (nobs : ℝ) ≤ 1 :=
    (div_le_one hnr).2 (by exact_mod_cast hcn)
  obtain ⟨g0, g1, g2, g3⟩ :=
    wilson_algebra ((count : ℝ) / (nobs : ℝ)) ((nobs : ℝ)) crit hq0 hq1 hnr hcrit
  have hdisc0 : ¬((count : ℝ) / (nobs : ℝ) * (1 - (count : ℝ) / (nobs : ℝ)) / (nobs : ℝ)
      + crit ^ 2 / (4 * (nobs : ℝ) ^ 2) < 0) := by
    apply not_lt.2
    have h1 : 0 ≤ (count : ℝ) / (nobs : ℝ) * (1 - (count : ℝ) / (nobs : ℝ)) / (nobs : ℝ) :=
      div_nonneg (mul_nonneg hq0 (by linarith)) hnr.le
    have h2 : 0 ≤ crit ^ 2 / (4 * (nobs : ℝ) ^ 2) := by positivity
    linarith
  refine ⟨_, _, ?_, g0, g1, g2, g3⟩
  simp only [compute_confidence_interval]
  rw [if_neg hn0, if_neg hdisc0]

/-- Claim C1: for every `(count, n)` with `0 ≤ count ≤ n`, `n > 0`, and
a nonnegative Wilson critical value (as produced by `norm.isf(alpha/2)`
for `alpha ≤ 1`), the Wilson interval returned by
`compute_confidence_interval` satisfies
`0 ≤ lower ≤ count/n ≤ upper ≤ 1`. -/
theorem compute_confidence_interval_wilson_bounds (count nobs : ℕ) (crit : ℝ)
    (hcn : count ≤ nobs) (hn : 0 < nobs) (hcrit : 0 ≤ crit) :
    ∃ lo hi : ℝ,
      compute_confidence_interval count nobs crit = .ok (lo, hi) ∧
      0 ≤ lo ∧ lo ≤ (count : ℝ) / (nobs : ℝ) ∧
      (count : ℝ) / (nobs : ℝ) ≤ hi ∧ hi ≤ 1 :=
  wilson_ok_bounds count nobs crit hcn hn hcrit

theorem compute_confidence_interval_wilson_bounds_witness :
    ∃ lo hi : ℝ,
      compute_confidence_interval 0 1 1 = .ok (lo, hi) ∧
      0 ≤ lo ∧ lo ≤ (0 : ℝ) / (1 : ℝ) ∧
      (0 : ℝ) / (1 : ℝ) ≤ hi ∧ hi ≤ 1 := by
  have h := compute_confidence_interval_wilson_bounds 0 1 1
    (by norm_num) (by norm_num) (by norm_num)
  simpa using h

end Wilson

section WilsonGuards

/-- Claim C9 (corrected): `compute_confidence_interval` fails when
`nobs = 0` (the scalar division raises), and it returns a numeric pair
whenever `0 ≤ count ≤ nobs` and `nobs > 0` (with a nonnegative
critical value).  It does not, however, fail for every `count > nobs`:
no such validation exists in `proportion_confint`, and when the Wilson
discriminant stays nonnegative a numeric pair is returned (see the
counterexample). -/
theorem compute_confidence_interval_guards (count nobs : ℕ) (crit : ℝ) :
    (nobs = 0 →
      compute_confidence_interval count nobs crit = .error .invalidParameter) ∧
    (count ≤ nobs → 0 < nobs → 0 ≤ crit →
      ∃ lo hi : ℝ, compute_confidence_interval count nobs crit = .ok (lo, hi)) := by
  constructor
  · intro h
    rw [compute_confidence_interval, if_pos h]
  · intro hcn hn hcrit
    obtain ⟨lo, hi, heq, -, -, -, -⟩ := wilson_ok_bounds count nobs crit hcn hn hcrit
    exact ⟨lo, hi, heq⟩

theorem compute_confidence_interval_guards_witness :
    compute_confidence_interval 1 0 1 = .error .invalidParameter ∧
    ∃ lo hi : ℝ, compute_confidence_interval 1 2 1 = .ok (lo, hi) :=
  ⟨(compute_confidence_interval_guards 1 0 1).1 rfl,
   (compute_confidence_interval_guards 1 2 1).2
     (by norm_num) (by norm_num) (by norm_num)⟩

/-- Claim C9 counterexample: with `count = 2 > nobs = 1` and critical
value `3` (an `alpha` near 0.0027), the Wilson discriminant is
`2 * (1 - 2) / 1 + 9/4 = 1/4 ≥ 0`, so the function returns the numeric
pair `(1/2, 4/5)` rather than failing: the claim that it fails with
`InvalidParameter` whenever `count > nobs` is false on the code. -/
theorem compute_confidence_interval_count_gt_nobs_returns_pair :
    compute_confidence_interval 2 1 3 = .ok (1/2, 4/5) := by
  have hs : Real.sqrt (4 : ℝ) = 2 := by
    rw [show (4 : ℝ) = 2 ^ 2 by norm_num,
      Real.sqrt_sq (by norm_num : (0 : ℝ) ≤ 2)]
  simp only [compute_confidence_interval]
  norm_num
  rw [hs]
  norm_num

end WilsonGuards

section DataFrames

/-- A pandas timestamp, modelled as a day index since the epoch plus an
hour of day; `.dt.date`, `.dt.day_name()` and `.dt.hour` are derived
from these fields. -/
structure Timestamp where
  days : Nat
  hour : Nat
  deriving DecidableEq, Repr

/-- A dataframe cell: a timestamp, a number, or a string. -/
inductive Cell where
  | ts (t : Timestamp) : Cell
  | num (x : ℚ) : Cell
  | str (s : String) : Cell
  | nat (n : Nat) : Cell
  deriving DecidableEq, Repr

/-- A pandas `DataFrame`, modelled as named columns in order. -/
abbrev DataFrame : Type := List (String × List Cell)

/-- Column lookup (`df[name]`), first matching label. -/
def getCol : DataFrame → String → Option (List Cell)
  | [], _ => none
  | (k, v) :: rest, name => if k = name then some v else getCol rest name

/-- Replace every column labelled `name` by `col`. -/
def replaceCol : DataFrame → String → List Cell → DataFrame
  | [], _, _ => []
  | (k, v) :: rest, name, col =>
    if k = name then (k, col) :: replaceCol rest name col
    else (k, v) :: replaceCol rest name col

/-- Does a column with this label exist? -/
def hasCol (df : DataFrame) (name : String) : Bool :=
  df.any fun p => decide (p.1 = name)

/-- Column assignment (`df[name] = col`): replace in place when the
label exists, append a new column otherwise. -/
def setCol (df : DataFrame) (name : String) (col : List Cell) : DataFrame :=
  if hasCol df name then replaceCol df name col else df ++ [(name, col)]

/-- Weekday names as produced by `Timestamp.day_name()`. -/
def dayNames : List String :=
  ["Monday", "Tuesday", "Wednesday", "Thursday", "Friday", "Saturday", "Sunday"]

/-- `.dt.day_name()`: the epoch day 0 (1970-01-01) was a Thursday. -/
def Timestamp.dayName (t : Timestamp) : String :=
  dayNames.getD ((t.days + 3) % 7) ""

/-- The timestamp stored in a cell (the `.dt` accessor only ever sees
timestamp cells in the analysed data). -/
def cellTimestamp : Cell → Timestamp
  | .ts t => t
  | _ => ⟨0, 0⟩

/-- `add_derived_features(df)` from `src/data_utils.py`: copy the
dataframe (`df = df.copy()`, so the caller's value is untouched), then
assign the `date`, `day_of_week` and `hour` columns derived from the
`timestamp` column of the copy.  A missing `timestamp` column raises
`KeyError` in the source, modelled as `none`. -/
def add_derived_features (df : DataFrame) : Option DataFrame :=
  match getCol df "timestamp" with
  | none => none
  | some tsCol =>
    let df2 := setCol df "date" (tsCol.map fun c => Cell.nat (cellTimestamp c).days)
    let df3 := setCol df2 "day_of_week"
      (tsCol.map fun c => Cell.str ((cellTimestamp c).dayName))
    some (setCol df3 "hour" (tsCol.map fun c => Cell.nat (cellTimestamp c).hour))

lemma getCol_replaceCol_ne (df : DataFrame) (n m : String) (col : List Cell)
    (h : m ≠ n) : getCol (replaceCol df n col) m = getCol df m := by
  induction df with
  | nil => rfl
  | cons p rest ih =>
    obtain ⟨k, v⟩ := p
    by_cases hk : k = n
    · subst hk
      rw [replaceCol, if_pos rfl, getCol, getCol, if_neg (fun hnm => h hnm.symm),
        if_neg (fun hnm => h hnm.symm)]
      exact ih
    · rw [replaceCol, if_neg hk, getCol, getCol]
      by_cases hm : k = m
      · rw [if_pos hm, if_pos hm]
      · rw [if_neg hm, if_neg hm]
        exact ih

lemma getCol_append_single_ne (df : DataFrame) (n m : String) (col : List Cell)
    (h : m ≠ n) : getCol (df ++ [(n, col)]) m = getCol df m := by
  induction df with
  | nil =>
    rw [List.nil_append]
    simp only [getCol]
    rw [if_neg (fun hnm => h hnm.symm)]
  | cons p rest ih =>
    obtain ⟨k, v⟩ := p
    rw [List.cons_append, getCol, getCol]
    by_cases hm : k = m
    · rw [if_pos hm, if_pos hm]
    · rw [if_neg hm, if_neg hm]
      exact ih

lemma getCol_setCol_ne (df : DataFrame) (n m : String) (col : List Cell)
    (h : m ≠ n) : getCol (setCol df n col) m = getCol df m := by
  rw [setCol]
  by_cases hc : hasCol df n
  · rw [if_pos hc]
    exact getCol_replaceCol_ne df n m col h
  · rw [if_neg hc]
    exact getCol_append_single_ne df n m col h

lemma getCol_replaceCol_self (df : DataFrame) (n : String) (col : List Cell)
    (h : hasCol df n = true) : getCol (replaceCol df n col) n = some col := by
  induction df with
  | nil => cases h
  | cons p rest ih =>
    obtain ⟨k, v⟩ := p
    by_cases hk : k = n
    · subst hk
      rw [replaceCol, if_pos rfl, getCol, if_pos rfl]
    · rw [replaceCol, if_neg hk, getCol, if_neg hk]
      apply ih
      simp only [hasCol, List.any_cons, Bool.or_eq_true, decide_eq_true_eq] at h
      rcases h with h | h
      · exact absurd h hk
      · exact h

lemma getCol_append_single_self (df : DataFrame) (n : String) (col : List Cell)
    (h : hasCol df n = false) : getCol (df ++ [(n, col)]) n = some col := by
  induction df with
  | nil =>
    rw [List.nil_append, getCol, if_pos rfl]
  | cons p rest ih =>
    obtain ⟨k, v⟩ := p
    have h' := h
    rw [hasCol, List.any_cons] at h'
    rcases Bool.or_eq_false_iff.1 h' with ⟨h1, h2⟩
    have hk : k ≠ n := of_decide_eq_false h1
    rw [List.cons_append, getCol, if_neg hk]
    exact ih h2

lemma getCol_setCol_self (df : DataFrame) (n : String) (col : List Cell) :
    getCol (setCol df n col) n = some col := by
  rw [setCol]
  by_cases hc : hasCol df n
  · rw [if_pos hc]
    exact getCol_replaceCol_self df n col hc
  · rw [if_neg hc]
    apply getCol_append_single_self
    revert hc
    cases hasCol df n <;> simp

end DataFrames

section DerivedFeatures

/-- Claim C10 (corrected): for every dataframe with a `timestamp`
column, `add_derived_features` returns a dataframe in which every
column other than `date`, `day_of_week` and `hour` is present
unchanged, while those three are set to the features derived from the
`timestamp` column.  The caller's dataframe itself is untouched (the
source assigns only to `df.copy()`; the embedding is a pure function
of the input).  If the input already contains one of the three derived
columns, its values are overwritten in the result, so the original
claim that all input columns survive unchanged fails. -/
theorem add_derived_features_preserves_other_columns (df : DataFrame)
    (tsCol : List Cell) (hts : getCol df "timestamp" = some tsCol) :
    ∃ df' : DataFrame,
      add_derived_features df = some df' ∧
      (∀ name : String, name ≠ "date" → name ≠ "day_of_week" → name ≠ "hour" →
        getCol df' name = getCol df name) ∧
      getCol df' "date" = some (tsCol.map fun c => Cell.nat (cellTimestamp c).days) ∧
      getCol df' "day_of_week"
        = some (tsCol.map fun c => Cell.str ((cellTimestamp c).dayName)) ∧
      getCol df' "hour" = some (tsCol.map fun c => Cell.nat (cellTimestamp c).hour) := by
  refine ⟨setCol (setCol (setCol df "date"
      (tsCol.map fun c => Cell.nat (cellTimestamp c).days)) "day_of_week"
      (tsCol.map fun c => Cell.str ((cellTimestamp c).dayName))) "hour"
      (tsCol.map fun c => Cell.nat (cellTimestamp c).hour), ?_, ?_, ?_, ?_, ?_⟩
  · rw [add_derived_features, hts]
  · intro name h1 h2 h3
    rw [getCol_setCol_ne _ _ _ _ h3, getCol_setCol_ne _ _ _ _ h2,
      getCol_setCol_ne _ _ _ _ h1]
  · rw [getCol_setCol_ne _ _ _ _ (by decide : "date" ≠ "hour"),
      getCol_setCol_ne _ _ _ _ (by decide : "date" ≠ "day_of_week"),
      getCol_setCol_self]
  · rw [getCol_setCol_ne _ _ _ _ (by decide : "day_of_week" ≠ "hour"),
      getCol_setCol_self]
  · rw [getCol_setCol_self]

theorem add_derived_features_preserves_other_columns_witness :
    ∃ df' : DataFrame,
      add_derived_features [("timestamp", [Cell.ts ⟨0, 5⟩]), ("revenue", [Cell.num 3])]
        = some df' ∧
      (∀ name : String, name ≠ "date" → name ≠ "day_of_week" → name ≠ "hour" →
        getCol df' name
          = getCol [("timestamp", [Cell.ts ⟨0, 5⟩]), ("revenue", [Cell.num 3])] name) ∧
      getCol df' "date"
        = some ([Cell.ts ⟨0, 5⟩].map fun c => Cell.nat (cellTimestamp c).days) ∧
      getCol df' "day_of_week"
        = some ([Cell.ts ⟨0, 5⟩].map fun c => Cell.str ((cellTimestamp c).dayName)) ∧
      getCol df' "hour"
        = some ([Cell.ts ⟨0, 5⟩].map fun c => Cell.nat (cellTimestamp c).hour) :=
  add_derived_features_preserves_other_columns
    [("timestamp", [Cell.ts ⟨0, 5⟩]), ("revenue", [Cell.num 3])]
    [Cell.ts ⟨0, 5⟩] rfl

/-- A dataframe that already carries a `date` column. -/
def dfWithDate : DataFrame :=
  [("timestamp", [Cell.ts ⟨0, 5⟩]), ("date", [Cell.str "original"])]

/-- Claim C10 counterexample: on an input that already has a `date`
column, `add_derived_features` overwrites it with the derived dates,
so not every column of the input is present unchanged in the result:
the input's `date` column holds the string `"original"`, the output's
holds the derived day index `0`. -/
theorem add_derived_features_overwrites_existing_date :
    (add_derived_features dfWithDate).map (fun d => getCol d "date")
      = some (some [Cell.nat 0]) ∧
    getCol dfWithDate "date" = some [Cell.str "original"] := by
  constructor <;> rfl

end DerivedFeatures
